import Mathlib

/-!
Shallow embedding of the core of `analyze_packages.py` (Shai-Hulud /
DependencyTrack malicious-package analysis): the version-spec parser, the
two-feed lookup reconciler, the match classifier, and the statistics-update
step, together with theorems settling the specification claims.

Python strings are modelled as `List Char` (`Str`); Python dicts built by the
program are modelled as association lists with insert-or-replace semantics
(key order is irrelevant to every claim).
-/

namespace ShaiHulud

/-- Python strings, modelled as lists of characters. -/
abbrev Str := List Char

/-- The ASCII whitespace characters stripped by Python `str.strip()`. -/
def isSpace (c : Char) : Bool :=
  c == ' ' || c == '\t' || c == '\n' || c == '\r' || c == Char.ofNat 11 || c == Char.ofNat 12

/-- Left part of Python `str.strip()`: drop leading whitespace. -/
def lstrip (s : Str) : Str := s.dropWhile isSpace

/-- Right part of Python `str.strip()`: drop trailing whitespace. -/
def rstrip (s : Str) : Str := ((s.reverse).dropWhile isSpace).reverse

/-- Python `str.strip()`: drop leading and trailing whitespace. -/
def pyStrip (s : Str) : Str := rstrip (lstrip s)

/-- A string with no leading or trailing whitespace (fixed point of strip). -/
def Stripped (s : Str) : Prop := lstrip s = s ∧ rstrip s = s

/-- A string containing no bar character, hence no version-spec separator. -/
def NoBar (s : Str) : Prop := ∀ c ∈ s, c ≠ '|'

/-- Python `version_str.split("||")`: split on non-overlapping occurrences of
the two-bar separator, scanning left to right. -/
def splitBars : Str → List Str
  | [] => [[]]
  | [c] => [[c]]
  | c :: d :: rest =>
    if c = '|' ∧ d = '|' then
      [] :: splitBars rest
    else
      match splitBars (d :: rest) with
      | [] => [[c]]
      | t :: ts => (c :: t) :: ts

/-- One term of the version expression: strip whitespace, then strip one
leading `=` and any whitespace after it (the per-term body of
`parse_version`). -/
def parseTerm (t : Str) : Str :=
  let v := pyStrip t
  if v.head? = some '=' then pyStrip v.tail else v

/-- The segment of a version string before its first dot: Python
`v.split(".")[0]` (the whole string when it contains no dot). -/
def majorSeg (v : Str) : Str := v.takeWhile (fun ch => ch != '.')

/-- Major version derived from a version list: the pre-dot segment of the
first element, or `none` for an empty list (matches the repeated Python
pattern `major_version = None; if versions: ... parts[0]`, where
`first.split(".")` is always non-empty). -/
def majorOf (versions : List Str) : Option Str :=
  match versions with
  | [] => none
  | first :: _ => some (majorSeg first)

/-- `parse_version` from the source: split the expression on the two-bar
separator, canonicalise each term, and derive the major version from the
first term. Returns `(major_version, versions)`. -/
def parse_version (version_str : Str) : Option Str × List Str :=
  let versions := (splitBars version_str).map parseTerm
  (majorOf versions, versions)

/-- Python string comparison (`<=`) on code points: lexicographic with the
shorter prefix first. -/
def strLe : Str → Str → Bool
  | [], _ => true
  | _ :: _, [] => false
  | a :: as, b :: bs =>
    if a.toNat < b.toNat then true
    else if b.toNat < a.toNat then false
    else strLe as bs

/-- Insert a string into a `strLe`-sorted list, keeping it sorted. -/
def insertSorted (x : Str) : List Str → List Str
  | [] => [x]
  | y :: ys => if strLe x y then x :: y :: ys else y :: insertSorted x ys

/-- Sort a list of strings by `strLe` (models Python `sorted` on strings;
applied below only to duplicate-free lists, where any sort by this total
order yields the same list). -/
def sortStrs (l : List Str) : List Str := l.foldr insertSorted []

/-- Association-list lookup, modelling `d[k]` / `k in d` on a Python dict. -/
def dictFind {V : Type} : List (Str × V) → Str → Option V
  | [], _ => none
  | (k, v) :: rest, q => if q = k then some v else dictFind rest q

/-- Association-list insert-or-replace, modelling `d[k] = v` on a Python
dict (unique keys; existing key keeps its position). -/
def dictInsert {V : Type} : List (Str × V) → Str → V → List (Str × V)
  | [], k, v => [(k, v)]
  | (k', v') :: rest, k, v =>
    if k = k' then (k, v) :: rest else (k', v') :: dictInsert rest k v

/-- Update the value at a key in place, leaving the dict unchanged when the
key is absent (in the program the key is always present: the statistics dict
is initialised with every lookup key). -/
def dictModify {V : Type} : List (Str × V) → Str → (V → V) → List (Str × V)
  | [], _, _ => []
  | (k', v') :: rest, k, f =>
    if k = k' then (k', f v') :: rest else (k', v') :: dictModify rest k f

/-- Every value stored in the dict satisfies `P`. -/
def allValues {V : Type} (P : V → Prop) (d : List (Str × V)) : Prop :=
  ∀ p ∈ d, P p.2

/-- The last element of a list satisfying `p`, if any. -/
def lastMatch {α : Type} (p : α → Prop) [DecidablePred p] : List α → Option α
  | [] => none
  | r :: rs =>
    match lastMatch p rs with
    | some r' => some r'
    | none => if p r then some r else none

/-- Provenance of a lookup entry (the `source` field: CSV is Feed A, JSON is
Feed B). -/
inductive Source : Type
  | CSV
  | JSON
  | CSVJSON
deriving DecidableEq

/-- One value of `packages_lookup`: the per-package record built by `main`. -/
structure PackageInfo : Type where
  version_str : Str
  malicious_versions : List Str
  major_version : Option Str
  all_versions_malicious : Bool
  source : Source
deriving DecidableEq

/-- One Feed A (CSV) row, reduced to the two fields the program reads;
a missing field is the empty string (`row.get(..., '')`). -/
structure CsvRow : Type where
  Package : Str
  Version : Str
deriving DecidableEq

/-- Python `' || '.join(items)`. -/
def joinSep (sep : Str) : List Str → Str
  | [] => []
  | [x] => x
  | x :: y :: rest => x ++ sep ++ joinSep sep (y :: rest)

/-- The lookup entry built from one Feed A row (`main`, CSV loop body). -/
def csvEntry (row : CsvRow) : PackageInfo :=
  let version_str := pyStrip row.Version
  let parsed := parse_version version_str
  { version_str := version_str
    malicious_versions := parsed.2
    major_version := parsed.1
    all_versions_malicious := false
    source := Source.CSV }

/-- The merged entry built when a Feed B package is already present from
Feed A (`main`, JSON loop, merge branch): sorted deduplicated union of the
two version lists, `all_versions_malicious` from Feed B's emptiness signal,
major version recomputed from the merged list. -/
def mergeEntry (existing : PackageInfo) (versions : List Str) : PackageInfo :=
  let all_versions := sortStrs ((existing.malicious_versions ++ versions).dedup)
  let all_versions_malicious := versions.isEmpty
  let version_str :=
    if all_versions_malicious then
      existing.version_str ++ (" || ALL VERSIONS").toList
    else
      joinSep (" || ").toList (all_versions.map (fun v => ['=', ' '] ++ v))
  { version_str := version_str
    malicious_versions := all_versions
    major_version := majorOf all_versions
    all_versions_malicious := all_versions_malicious
    source := Source.CSVJSON }

/-- The entry built from a Feed B package absent from Feed A (`main`, JSON
loop, new-package branch). -/
def jsonEntry (versions : List Str) : PackageInfo :=
  let all_versions_malicious := versions.isEmpty
  let version_str :=
    if versions.isEmpty then ("ALL VERSIONS").toList
    else joinSep (" || ").toList (versions.map (fun v => ['=', ' '] ++ v))
  { version_str := version_str
    malicious_versions := versions
    major_version := majorOf versions
    all_versions_malicious := all_versions_malicious
    source := Source.JSON }

/-- One step of the CSV loop in `main`: skip rows whose stripped package
name is empty, otherwise insert (overwriting any earlier row's entry). -/
def csvStep (acc : List (Str × PackageInfo)) (row : CsvRow) : List (Str × PackageInfo) :=
  let package_name := pyStrip row.Package
  if package_name = [] then acc
  else dictInsert acc package_name (csvEntry row)

/-- The CSV phase of lookup construction in `main`. -/
def process_csv (rows : List CsvRow) (lookup : List (Str × PackageInfo)) :
    List (Str × PackageInfo) :=
  rows.foldl csvStep lookup

/-- One step of the JSON loop in `main`: skip empty names, merge when the
package is already present, otherwise insert a fresh Feed B entry. The Feed B
record is reduced to its `versions` list (`package_data.get('versions', [])`). -/
def jsonStep (acc : List (Str × PackageInfo)) (item : Str × List Str) :
    List (Str × PackageInfo) :=
  let name := item.1
  let versions := item.2
  if name = [] then acc
  else
    match dictFind acc name with
    | some existing => dictInsert acc name (mergeEntry existing versions)
    | none => dictInsert acc name (jsonEntry versions)

/-- The JSON phase of lookup construction in `main`. -/
def process_json (items : List (Str × List Str)) (lookup : List (Str × PackageInfo)) :
    List (Str × PackageInfo) :=
  items.foldl jsonStep lookup

/-- The full lookup built by `main` from the two feeds. -/
def build_lookup (rows : List CsvRow) (items : List (Str × List Str)) :
    List (Str × PackageInfo) :=
  process_json items (process_csv rows [])

/-- The feed-acquisition control flow at the top of `main`: a failed CSV
download aborts with exit code 1 before any lookup exists; a failed JSON
download degrades to an empty Feed B. `none` models a download that raised. -/
def main_feeds (csvResult : Option (List CsvRow))
    (jsonResult : Option (List (Str × List Str))) :
    Except Nat (List (Str × PackageInfo)) :=
  match csvResult with
  | none => Except.error 1
  | some rows =>
    let items := jsonResult.getD []
    Except.ok (build_lookup rows items)

/-- Python `version.lstrip('vV')`: drop every leading `v` or `V`. -/
def vStrip (v : Str) : Str := v.dropWhile (fun ch => ch == 'v' || ch == 'V')

/-- The result of `match_component_against_packages`: three lists that are
either empty or `[component_name]`, one per match tier. -/
structure Matches : Type where
  any_version : List Str
  exact_version : List Str
  major_version : List Str
deriving DecidableEq

/-- `match_component_against_packages` from the source. A falsy Python check
`if major_version and comp_version_clean` requires the major version to be
non-null AND non-empty; `first.split(".")` is always non-empty, so the inner
`if version_parts` is always taken and `version_parts[0]` is `majorSeg`. -/
def match_component_against_packages (component_name component_version : Str)
    (packages_lookup : List (Str × PackageInfo)) : Matches :=
  match dictFind packages_lookup component_name with
  | none => { any_version := [], exact_version := [], major_version := [] }
  | some package_info =>
    if package_info.all_versions_malicious then
      { any_version := [component_name]
        exact_version := [component_name]
        major_version := if component_version = [] then [] else [component_name] }
    else
      let comp_version_clean :=
        if component_version = [] then [] else vStrip component_version
      let exact_version :=
        if comp_version_clean ∈ package_info.malicious_versions ∨
            component_version ∈ package_info.malicious_versions then
          [component_name]
        else []
      let major_list :=
        match package_info.major_version with
        | none => []
        | some mv =>
          if mv ≠ [] ∧ comp_version_clean ≠ [] then
            if majorSeg comp_version_clean = mv then [component_name] else []
          else []
      { any_version := [component_name]
        exact_version := exact_version
        major_version := major_list }

/-- One project's record inside a tier map: `{'name': ..., 'version': ...}`. -/
structure ProjEntry : Type where
  name : Str
  version : Str
deriving DecidableEq

/-- The per-package statistics record: three maps from project uuid to the
project's name and the component version used. -/
structure PkgStat : Type where
  projects_any_version : List (Str × ProjEntry)
  projects_exact_version : List (Str × ProjEntry)
  projects_major_version : List (Str × ProjEntry)
deriving DecidableEq

/-- The statistics-update step of the per-component loop in `main`: for each
package name in each tier of the match result, record the project under that
package's corresponding tier map. -/
def record_matches (package_stats : List (Str × PkgStat)) (m : Matches)
    (project_uuid project_name comp_version : Str) : List (Str × PkgStat) :=
  let pe : ProjEntry := ⟨project_name, comp_version⟩
  let s1 := m.any_version.foldl (fun acc pkg =>
    dictModify acc pkg (fun ps =>
      { ps with projects_any_version := dictInsert ps.projects_any_version project_uuid pe })) package_stats
  let s2 := m.exact_version.foldl (fun acc pkg =>
    dictModify acc pkg (fun ps =>
      { ps with projects_exact_version := dictInsert ps.projects_exact_version project_uuid pe })) s1
  let s3 := m.major_version.foldl (fun acc pkg =>
    dictModify acc pkg (fun ps =>
      { ps with projects_major_version := dictInsert ps.projects_major_version project_uuid pe })) s2
  s3

/-- The version-expression string of the claimed form, with every term
written with its `=` prefix and single surrounding spaces. -/
def mkExpr (a b c : Str) : Str :=
  (['=', ' '] ++ a ++ [' ']) ++ ['|', '|'] ++
  ([' ', '=', ' '] ++ b ++ [' ']) ++ ['|', '|'] ++
  ([' ', '=', ' '] ++ c)

/-- The invariant that actually holds of every lookup entry: an empty
version list forces the all-versions flag, and for entries not merged from
both feeds the flag holds exactly when the version list is empty. -/
def EntryInv (e : PackageInfo) : Prop :=
  (e.malicious_versions = [] → e.all_versions_malicious = true) ∧
  (e.source ≠ Source.CSVJSON →
    (e.all_versions_malicious = true ↔ e.malicious_versions = []))

instance (s : Str) : Decidable (Stripped s) := by
  unfold Stripped
  infer_instance

instance (s : Str) : Decidable (NoBar s) := by
  unfold NoBar
  infer_instance

instance (e : PackageInfo) : Decidable (EntryInv e) := by
  unfold EntryInv
  infer_instance

/-! ## Dictionary lemmas -/

theorem dictFind_insert {V : Type} (d : List (Str × V)) (k : Str) (v : V) (q : Str) :
    dictFind (dictInsert d k v) q = if q = k then some v else dictFind d q := by
  induction d with
  | nil => simp [dictInsert, dictFind]
  | cons p rest ih =>
    obtain ⟨k', v'⟩ := p
    by_cases hk : k = k'
    · subst hk
      by_cases hq : q = k <;> simp [dictInsert, dictFind, hq]
    · by_cases hq : q = k'
      · subst hq
        have hqk : q ≠ k := fun h => hk h.symm
        simp [dictInsert, hk, dictFind, hqk]
      · simp [dictInsert, hk, dictFind, hq, ih]

theorem allValues_insert {V : Type} {P : V → Prop} {d : List (Str × V)} {v : V}
    (hd : allValues P d) (hv : P v) (k : Str) : allValues P (dictInsert d k v) := by
  induction d with
  | nil =>
    intro p hp
    simp [dictInsert] at hp
    simp [hp, hv]
  | cons p' rest ih =>
    obtain ⟨k', v'⟩ := p'
    have hd' : allValues P rest := fun p hp => hd p (List.mem_cons_of_mem _ hp)
    have hv' : P v' := hd ⟨k', v'⟩ (List.mem_cons_self _ _)
    intro p hp
    by_cases hk : k = k'
    · simp [dictInsert, hk] at hp
      rcases hp with hp | hp
      · simp [hp, hv]
      · exact hd' p hp
    · simp only [dictInsert, if_neg hk] at hp
      rcases List.mem_cons.mp hp with hp | hp
      · simp [hp, hv']
      · exact ih hd' p hp

theorem allValues_find {V : Type} {P : V → Prop} {d : List (Str × V)} {q : Str} {v : V}
    (hd : allValues P d) (hf : dictFind d q = some v) : P v := by
  induction d with
  | nil => simp [dictFind] at hf
  | cons p rest ih =>
    obtain ⟨k', v'⟩ := p
    have hd' : allValues P rest := fun p hp => hd p (List.mem_cons_of_mem _ hp)
    by_cases hq : q = k'
    · simp [dictFind, hq] at hf
      subst hf
      exact hd ⟨k', v'⟩ (List.mem_cons_self _ _)
    · simp [dictFind, hq] at hf
      exact ih hd' hf

/-! ## splitBars lemmas -/

theorem splitBars_cons₂ (c d : Char) (rest : Str) :
    splitBars (c :: d :: rest) =
      if c = '|' ∧ d = '|' then [] :: splitBars rest
      else
        match splitBars (d :: rest) with
        | [] => [[c]]
        | t :: ts => (c :: t) :: ts := by
  rw [splitBars.eq_def]

theorem splitBars_ne_nil (s : Str) : splitBars s ≠ [] := by
  match s with
  | [] => simp [splitBars]
  | [c] => simp [splitBars]
  | c :: d :: rest =>
    rw [splitBars_cons₂]
    split
    · simp
    · split <;> simp

theorem splitBars_noBar {s : Str} (h : NoBar s) : splitBars s = [s] := by
  induction s with
  | nil => simp [splitBars]
  | cons c rest ih =>
    cases rest with
    | nil => simp [splitBars]
    | cons d rest2 =>
      have hc : c ≠ '|' := h c (List.mem_cons_self _ _)
      have hr : NoBar (d :: rest2) := fun x hx => h x (List.mem_cons_of_mem _ hx)
      rw [splitBars_cons₂, if_neg (by simp [hc]), ih hr]

theorem splitBars_append {xs : Str} (ys : Str) (h : NoBar xs) :
    splitBars (xs ++ '|' :: '|' :: ys) = xs :: splitBars ys := by
  induction xs with
  | nil =>
    rw [List.nil_append, splitBars_cons₂, if_pos ⟨rfl, rfl⟩]
  | cons c rest ih =>
    have hc : c ≠ '|' := h c (List.mem_cons_self _ _)
    have hr : NoBar rest := fun x hx => h x (List.mem_cons_of_mem _ hx)
    cases rest with
    | nil =>
      rw [List.cons_append, List.nil_append, splitBars_cons₂,
        if_neg (by simp [hc]), splitBars_cons₂, if_pos ⟨rfl, rfl⟩]
    | cons d rest2 =>
      rw [List.cons_append, List.cons_append, splitBars_cons₂, if_neg (by simp [hc])]
      have ih' : splitBars (d :: (rest2 ++ '|' :: '|' :: ys)) =
          (d :: rest2) :: splitBars ys := by
        rw [← List.cons_append]
        exact ih hr
      rw [ih']

/-! ## Strip lemmas -/

theorem lstrip_append (xs ys : Str) :
    lstrip (xs ++ ys) = if (lstrip xs).isEmpty then lstrip ys else lstrip xs ++ ys := by
  induction xs with
  | nil => simp [lstrip]
  | cons c rest ih =>
    by_cases hc : isSpace c
    · simp only [lstrip, List.cons_append, List.dropWhile_cons_of_pos hc]
      exact ih
    · simp [lstrip, List.dropWhile_cons_of_neg hc]

theorem rstrip_append_space (xs : Str) : rstrip (xs ++ [' ']) = rstrip xs := by
  simp only [rstrip, List.reverse_append, List.reverse_cons, List.reverse_nil,
    List.nil_append, List.cons_append]
  rw [List.dropWhile_cons_of_pos (by decide : isSpace ' ' = true)]

theorem pyStrip_cons_space (xs : Str) : pyStrip (' ' :: xs) = pyStrip xs := by
  simp only [pyStrip, lstrip]
  rw [List.dropWhile_cons_of_pos (by decide : isSpace ' ' = true)]

theorem pyStrip_append_space (xs : Str) : pyStrip (xs ++ [' ']) = pyStrip xs := by
  simp only [pyStrip]
  rw [lstrip_append]
  by_cases h : (lstrip xs).isEmpty
  · rw [if_pos h]
    rw [List.isEmpty_iff] at h
    rw [h]
    decide
  · rw [if_neg h, rstrip_append_space]

theorem rstrip_fix_head {a : Str} (ha : rstrip a = a) {c : Char} {t : Str}
    (hrev : a.reverse = c :: t) : isSpace c = false := by
  have h1 : (a.reverse).dropWhile isSpace = a.reverse := by
    have := congrArg List.reverse ha
    simpa [rstrip] using this
  by_contra hcon
  have hc : isSpace c = true := by
    cases hx : isSpace c
    · exact absurd hx hcon
    · rfl
  rw [hrev, List.dropWhile_cons_of_pos hc] at h1
  have hlen := congrArg List.length h1
  have hle := (List.dropWhile_sublist (l := t) isSpace).length_le
  simp at hlen
  omega

theorem rstrip_append_of {a : Str} (xs : Str) (ha : rstrip a = a) (hne : a ≠ []) :
    rstrip (xs ++ a) = xs ++ a := by
  obtain ⟨c, t, hrev⟩ : ∃ c t, a.reverse = c :: t := by
    cases hx : a.reverse with
    | nil =>
      exact absurd (by simpa using congrArg List.reverse hx) hne
    | cons c t => exact ⟨c, t, rfl⟩
  have hc : isSpace c = false := rstrip_fix_head ha hrev
  have : (xs ++ a).reverse = c :: (t ++ xs.reverse) := by
    rw [List.reverse_append, hrev, List.cons_append]
  rw [rstrip, this, List.dropWhile_cons_of_neg (by simp [hc]), ← List.cons_append, ← hrev,
    ← List.reverse_append, List.reverse_reverse]

theorem lstrip_of_stripped {a : Str} (h : Stripped a) : lstrip a = a := h.1

theorem pyStrip_of_stripped {a : Str} (h : Stripped a) : pyStrip a = a := by
  rw [pyStrip, h.1, h.2]

/-! ## parseTerm lemmas -/

theorem parseTerm_cons_space (t : Str) : parseTerm (' ' :: t) = parseTerm t := by
  simp only [parseTerm, pyStrip_cons_space]

theorem parseTerm_append_space (t : Str) : parseTerm (t ++ [' ']) = parseTerm t := by
  simp only [parseTerm, pyStrip_append_space]

theorem parseTerm_eq_core {a : Str} (h : Stripped a) : parseTerm (['=', ' '] ++ a) = a := by
  rcases List.eq_nil_or_concat a with hnil | _
  · subst hnil
    decide
  · have hne : a ≠ [] := by
      rintro rfl
      simp_all
    have h1 : pyStrip ('=' :: ' ' :: a) = '=' :: ' ' :: a := by
      rw [pyStrip]
      have h2 : lstrip ('=' :: ' ' :: a) = '=' :: ' ' :: a := by
        simp only [lstrip]
        rw [List.dropWhile_cons_of_neg (by decide)]
      rw [h2]
      exact rstrip_append_of ['=', ' '] h.2 hne
    simp [parseTerm, h1, pyStrip_cons_space, pyStrip_of_stripped h]

theorem parseTerm_t1 {a : Str} (h : Stripped a) :
    parseTerm ((['=', ' '] ++ a) ++ [' ']) = a := by
  rw [parseTerm_append_space, parseTerm_eq_core h]

theorem parseTerm_t2 {a : Str} (h : Stripped a) :
    parseTerm ((' ' :: ('=' :: ' ' :: a)) ++ [' ']) = a := by
  rw [parseTerm_append_space, parseTerm_cons_space]
  exact parseTerm_eq_core h

theorem parseTerm_t3 {a : Str} (h : Stripped a) :
    parseTerm (' ' :: ('=' :: ' ' :: a)) = a := by
  rw [parseTerm_cons_space]
  exact parseTerm_eq_core h

/-! ## Sorting lemmas -/

theorem strLe_total : ∀ a b : Str, strLe a b = true ∨ strLe b a = true := by
  intro a
  induction a with
  | nil => intro b; left; rfl
  | cons x xs ih =>
    intro b
    cases b with
    | nil => right; rfl
    | cons y ys =>
      simp only [strLe]
      rcases ih ys with h | h <;> split_ifs <;> simp [h]

theorem strLe_trans : ∀ a b c : Str, strLe a b = true → strLe b c = true → strLe a c = true := by
  intro a
  induction a with
  | nil => intro b c _ _; rfl
  | cons x xs ih =>
    intro b c hab hbc
    cases b with
    | nil => simp [strLe] at hab
    | cons y ys =>
      cases c with
      | nil => simp [strLe] at hbc
      | cons z zs =>
        simp only [strLe] at hab hbc ⊢
        split_ifs at hab hbc ⊢ <;> try rfl
        all_goals try omega
        all_goals exact ih ys zs hab hbc

theorem mem_insertSorted (x y : Str) (l : List Str) :
    y ∈ insertSorted x l ↔ y = x ∨ y ∈ l := by
  induction l with
  | nil => simp [insertSorted]
  | cons z zs ih =>
    simp only [insertSorted]
    split
    · simp [List.mem_cons]
    · simp only [List.mem_cons, ih]
      tauto

theorem insertSorted_ne_nil (x : Str) (l : List Str) : insertSorted x l ≠ [] := by
  cases l with
  | nil => simp [insertSorted]
  | cons z zs =>
    simp only [insertSorted]
    split <;> simp

theorem sorted_insertSorted (x : Str) {l : List Str}
    (h : List.Sorted (fun a b => strLe a b = true) l) :
    List.Sorted (fun a b => strLe a b = true) (insertSorted x l) := by
  induction l with
  | nil => simp [insertSorted]
  | cons y ys ih =>
    rw [List.sorted_cons] at h
    simp only [insertSorted]
    split
    · rename_i hxy
      rw [List.sorted_cons]
      constructor
      · intro b hb
        rcases List.mem_cons.mp hb with rfl | hb
        · exact hxy
        · exact strLe_trans x y b hxy (h.1 b hb)
      · rw [List.sorted_cons]
        exact h
    · rename_i hxy
      have hyx : strLe y x = true := by
        rcases strLe_total x y with hx | hx
        · exact absurd hx hxy
        · exact hx
      rw [List.sorted_cons]
      constructor
      · intro b hb
        rcases (mem_insertSorted x b ys).mp hb with rfl | hb
        · exact hyx
        · exact h.1 b hb
      · exact ih h.2

theorem nodup_insertSorted (x : Str) {l : List Str} (hl : l.Nodup) (hx : x ∉ l) :
    (insertSorted x l).Nodup := by
  induction l with
  | nil => simp [insertSorted]
  | cons y ys ih =>
    rw [List.nodup_cons] at hl
    simp only [insertSorted]
    split
    · rw [List.nodup_cons]
      refine ⟨hx, ?_⟩
      rw [List.nodup_cons]
      exact hl
    · rw [List.nodup_cons]
      constructor
      · intro hmem
        rcases (mem_insertSorted x y ys).mp hmem with rfl | hmem
        · exact hx (List.mem_cons_self _ _)
        · exact hl.1 hmem
      · exact ih hl.2 (fun hm => hx (List.mem_cons_of_mem _ hm))

theorem mem_sortStrs (y : Str) (l : List Str) : y ∈ sortStrs l ↔ y ∈ l := by
  induction l with
  | nil => simp [sortStrs]
  | cons x xs ih =>
    show y ∈ insertSorted x (sortStrs xs) ↔ _
    rw [mem_insertSorted, ih, List.mem_cons]

theorem sorted_sortStrs (l : List Str) :
    List.Sorted (fun a b => strLe a b = true) (sortStrs l) := by
  induction l with
  | nil => simp [sortStrs]
  | cons x xs ih => exact sorted_insertSorted x ih

theorem nodup_sortStrs {l : List Str} (h : l.Nodup) : (sortStrs l).Nodup := by
  induction l with
  | nil => simp [sortStrs]
  | cons x xs ih =>
    rw [List.nodup_cons] at h
    exact nodup_insertSorted x (ih h.2) (fun hm => h.1 ((mem_sortStrs x xs).mp hm))

theorem sortStrs_eq_nil {l : List Str} (h : sortStrs l = []) : l = [] := by
  cases l with
  | nil => rfl
  | cons x xs => exact absurd h (insertSorted_ne_nil x (sortStrs xs))

/-! ## CSV-phase lemmas -/

theorem parse_version_snd_ne_nil (s : Str) : (parse_version s).2 ≠ [] := by
  simp only [parse_version]
  intro h
  exact splitBars_ne_nil s (List.map_eq_nil_iff.mp h)

theorem csvEntry_versions_ne_nil (row : CsvRow) : (csvEntry row).malicious_versions ≠ [] :=
  parse_version_snd_ne_nil _

theorem process_csv_find_aux (rows : List CsvRow) :
    ∀ (d : List (Str × PackageInfo)) (name : Str), name ≠ [] →
    dictFind (process_csv rows d) name =
      match lastMatch (fun r => pyStrip r.Package = name) rows with
      | some r => some (csvEntry r)
      | none => dictFind d name := by
  induction rows with
  | nil => intro d name _; rfl
  | cons row rows ih =>
    intro d name hname
    show dictFind (process_csv rows (csvStep d row)) name = _
    rw [ih (csvStep d row) name hname]
    simp only [lastMatch]
    cases hlast : lastMatch (fun r => pyStrip r.Package = name) rows with
    | some r => rfl
    | none =>
      simp only [csvStep]
      by_cases hskip : pyStrip row.Package = []
      · rw [if_pos hskip]
        rw [if_neg (fun h => hname (hskip ▸ h.symm))]
      · rw [if_neg hskip, dictFind_insert]
        by_cases hmatch : pyStrip row.Package = name
        · rw [if_pos hmatch.symm, if_pos hmatch]
        · rw [if_neg (fun h => hmatch h.symm), if_neg hmatch]

theorem process_csv_find_nil (rows : List CsvRow) :
    ∀ d : List (Str × PackageInfo),
    dictFind (process_csv rows d) [] = dictFind d [] := by
  induction rows with
  | nil => intro d; rfl
  | cons row rows ih =>
    intro d
    show dictFind (process_csv rows (csvStep d row)) [] = _
    rw [ih (csvStep d row)]
    simp only [csvStep]
    by_cases hskip : pyStrip row.Package = []
    · rw [if_pos hskip]
    · rw [if_neg hskip, dictFind_insert, if_neg (fun h => hskip h.symm)]

/-! ## JSON-phase lemmas -/

theorem jsonStep_find_ne {d : List (Str × PackageInfo)} {item : Str × List Str} {name : Str}
    (h : item.1 ≠ name) : dictFind (jsonStep d item) name = dictFind d name := by
  simp only [jsonStep]
  split
  · rfl
  · split <;> rw [dictFind_insert, if_neg (fun hq => h hq.symm)]

theorem process_json_find_not_mem {items : List (Str × List Str)} {name : Str}
    (h : name ∉ items.map Prod.fst) :
    ∀ d, dictFind (process_json items d) name = dictFind d name := by
  induction items with
  | nil => intro d; rfl
  | cons item rest ih =>
    intro d
    have h1 : item.1 ≠ name := by
      intro he
      exact h (by simp [← he])
    have h2 : name ∉ rest.map Prod.fst := fun hm => h (by simp [hm])
    show dictFind (process_json rest (jsonStep d item)) name = _
    rw [ih h2, jsonStep_find_ne h1]

theorem process_json_find_merge {items : List (Str × List Str)} {name : Str}
    {data : List Str} (hnd : (items.map Prod.fst).Nodup) (hmem : (name, data) ∈ items)
    (hname : name ≠ []) :
    ∀ {d : List (Str × PackageInfo)} {e0 : PackageInfo}, dictFind d name = some e0 →
    dictFind (process_json items d) name = some (mergeEntry e0 data) := by
  induction items with
  | nil => simp at hmem
  | cons item rest ih =>
    intro d e0 hfind
    rw [List.map_cons, List.nodup_cons] at hnd
    rcases List.mem_cons.mp hmem with heq | hmem'
    · subst heq
      show dictFind (process_json rest (jsonStep d (name, data))) name = _
      have hstep : jsonStep d (name, data) = dictInsert d name (mergeEntry e0 data) := by
        simp only [jsonStep, if_neg hname, hfind]
      rw [hstep, process_json_find_not_mem hnd.1, dictFind_insert, if_pos rfl]
    · have hin : name ∈ rest.map Prod.fst := by
        exact List.mem_map.mpr ⟨(name, data), hmem', rfl⟩
      have hne : item.1 ≠ name := fun he => hnd.1 (he ▸ hin)
      show dictFind (process_json rest (jsonStep d item)) name = _
      have hfind' : dictFind (jsonStep d item) name = some e0 := by
        rw [jsonStep_find_ne hne, hfind]
      exact ih hnd.2 hmem' hfind'

/-! ## Entry-invariant lemmas -/

theorem csvEntry_inv (row : CsvRow) : EntryInv (csvEntry row) := by
  constructor
  · intro h
    exact absurd h (csvEntry_versions_ne_nil row)
  · intro _
    constructor
    · intro h
      exact absurd h (by simp [csvEntry])
    · intro h
      exact absurd h (csvEntry_versions_ne_nil row)

theorem jsonEntry_inv (versions : List Str) : EntryInv (jsonEntry versions) := by
  constructor
  · intro h
    have hv : versions = [] := by simpa [jsonEntry] using h
    simp [jsonEntry, hv]
  · intro _
    simp [jsonEntry, List.isEmpty_iff]

theorem mergeEntry_inv (existing : PackageInfo) (versions : List Str) :
    EntryInv (mergeEntry existing versions) := by
  constructor
  · intro h
    simp only [mergeEntry] at h ⊢
    have h1 : (existing.malicious_versions ++ versions).dedup = [] := sortStrs_eq_nil h
    have h2 : existing.malicious_versions ++ versions = [] := (List.dedup_eq_nil _).mp h1
    have h3 : versions = [] := (List.append_eq_nil.mp h2).2
    simp [h3]
  · intro hsrc
    exact absurd rfl hsrc

theorem process_csv_allValues {rows : List CsvRow} :
    ∀ {d : List (Str × PackageInfo)}, allValues EntryInv d →
    allValues EntryInv (process_csv rows d) := by
  induction rows with
  | nil => intro d h; exact h
  | cons row rows ih =>
    intro d h
    show allValues EntryInv (process_csv rows (csvStep d row))
    apply ih
    simp only [csvStep]
    split
    · exact h
    · exact allValues_insert h (csvEntry_inv row) _

theorem process_json_allValues {items : List (Str × List Str)} :
    ∀ {d : List (Str × PackageInfo)}, allValues EntryInv d →
    allValues EntryInv (process_json items d) := by
  induction items with
  | nil => intro d h; exact h
  | cons item rest ih =>
    intro d h
    show allValues EntryInv (process_json rest (jsonStep d item))
    apply ih
    simp only [jsonStep]
    split
    · exact h
    · split
      · exact allValues_insert h (mergeEntry_inv _ _) _
      · exact allValues_insert h (jsonEntry_inv _) _

theorem build_lookup_allValues (rows : List CsvRow) (items : List (Str × List Str)) :
    allValues EntryInv (build_lookup rows items) := by
  apply process_json_allValues
  apply process_csv_allValues
  intro p hp
  simp at hp

/-! ## Miscellaneous helper lemmas -/

theorem noBar_nil : NoBar [] := fun ch hch => absurd hch (List.not_mem_nil ch)

theorem noBar_cons {c : Char} {xs : Str} (hc : c ≠ '|') (hx : NoBar xs) :
    NoBar (c :: xs) := by
  intro ch hch
  rcases List.mem_cons.mp hch with rfl | h
  · exact hc
  · exact hx ch h

theorem noBar_append {xs ys : Str} (hx : NoBar xs) (hy : NoBar ys) : NoBar (xs ++ ys) :=
  fun ch hch => (List.mem_append.mp hch).elim (hx ch) (hy ch)

theorem majorOf_eq_head (l : List Str) : majorOf l = l.head?.map majorSeg := by
  cases l <;> rfl

theorem clean_eq_vStrip (ver : Str) :
    (if ver = [] then [] else vStrip ver) = vStrip ver := by
  by_cases h : ver = [] <;> simp [h, vStrip]

/-! ## Claim theorems -/

/-- C9: for every input string, including the empty one, `parse_version`
returns at least one version (splitting always yields at least one term), so
the major version is never null; on the empty string it returns the
singleton list of the empty string and an empty-string (not null) major
version. -/
theorem claim_C9 :
    (∀ s : Str, (parse_version s).2 ≠ [] ∧ (parse_version s).1 ≠ none) ∧
    parse_version [] = (some [], [[]]) := by
  constructor
  · intro s
    have h2 := parse_version_snd_ne_nil s
    refine ⟨h2, ?_⟩
    simp only [parse_version] at h2 ⊢
    cases hv : (splitBars s).map parseTerm with
    | nil => exact absurd hv h2
    | cons x xs => simp [majorOf]
  · decide

/-- C8: a failed Feed A (CSV) download aborts the run with a non-zero exit
before any lookup is built; a failed Feed B (JSON) download degrades to an
empty Feed B, so the lookup is built from Feed A data alone. -/
theorem claim_C8 :
    (∀ items, main_feeds none items = Except.error 1) ∧
    (∀ rows, main_feeds (some rows) none = Except.ok (process_csv rows [])) := by
  constructor
  · intro items
    rfl
  · intro rows
    rfl

/-- C7: the classifier is monotone: an exact-version match implies an
any-version match. -/
theorem claim_C7 (d : List (Str × PackageInfo)) (name ver : Str)
    (h : (match_component_against_packages name ver d).exact_version ≠ []) :
    (match_component_against_packages name ver d).any_version ≠ [] := by
  cases hfind : dictFind d name with
  | none =>
    simp [match_component_against_packages, hfind] at h
  | some info =>
    simp only [match_component_against_packages, hfind] at h ⊢
    split <;> simp

/-- Witness for C7 at a concrete lookup containing an all-versions entry. -/
theorem claim_C7_witness :
    (match_component_against_packages (("a").toList) (("1.0").toList)
      [((("a").toList), jsonEntry [])]).exact_version ≠ [] ∧
    (match_component_against_packages (("a").toList) (("1.0").toList)
      [((("a").toList), jsonEntry [])]).any_version ≠ [] :=
  ⟨by decide, claim_C7 _ _ _ (by decide)⟩

/-- C6: a component whose name is absent from the lookup yields the all-false
match result, and feeding that result to the statistics-update step leaves
the statistics unchanged (the classifier and updater are total functions, so
no exception is modelled or raised). -/
theorem claim_C6 (d : List (Str × PackageInfo)) (name ver : Str)
    (h : dictFind d name = none) (stats : List (Str × PkgStat)) (uuid pname cv : Str) :
    match_component_against_packages name ver d =
      { any_version := [], exact_version := [], major_version := [] } ∧
    record_matches stats (match_component_against_packages name ver d) uuid pname cv =
      stats := by
  have h1 : match_component_against_packages name ver d =
      { any_version := ([] : List Str), exact_version := ([] : List Str),
        major_version := ([] : List Str) } := by
    simp [match_component_against_packages, h]
  refine ⟨h1, ?_⟩
  rw [h1]
  rfl

/-- Witness for C6 on the empty lookup. -/
theorem claim_C6_witness :
    dictFind ([] : List (Str × PackageInfo)) (("left-pad").toList) = none ∧
    (match_component_against_packages (("left-pad").toList) (("1.0").toList) [] =
      { any_version := [], exact_version := [], major_version := [] } ∧
    record_matches [] (match_component_against_packages (("left-pad").toList)
      (("1.0").toList) []) (("u1").toList) (("p1").toList) (("1.0").toList) = []) :=
  ⟨by decide, claim_C6 _ _ _ (by decide) _ _ _ _⟩

/-- C10: when building the lookup from Feed A, rows whose `Package` strips to
the empty string create no entry (there is never an entry under the empty
name), and the entry for any non-empty name is built solely from the last
row whose stripped `Package` equals that name. -/
theorem claim_C10 (rows : List CsvRow) (name : Str) (hname : name ≠ []) :
    dictFind (process_csv rows []) name =
      (lastMatch (fun r => pyStrip r.Package = name) rows).map csvEntry ∧
    dictFind (process_csv rows []) [] = none := by
  constructor
  · rw [process_csv_find_aux rows [] name hname]
    cases lastMatch (fun r => pyStrip r.Package = name) rows <;> rfl
  · rw [process_csv_find_nil rows []]
    rfl

/-- Witness for C10: two rows for the same package plus a whitespace-only
row; the entry comes from the last matching row. -/
theorem claim_C10_witness :
    (("a").toList : Str) ≠ [] ∧
    (dictFind (process_csv [⟨("a").toList, ("= 1.0.0").toList⟩,
        ⟨(" ").toList, ("= 9.9.9").toList⟩,
        ⟨("a ").toList, ("= 2.0.0").toList⟩] []) (("a").toList) =
      (lastMatch (fun r => pyStrip r.Package = ("a").toList)
        [⟨("a").toList, ("= 1.0.0").toList⟩,
         ⟨(" ").toList, ("= 9.9.9").toList⟩,
         ⟨("a ").toList, ("= 2.0.0").toList⟩]).map csvEntry ∧
    dictFind (process_csv [⟨("a").toList, ("= 1.0.0").toList⟩,
        ⟨(" ").toList, ("= 9.9.9").toList⟩,
        ⟨("a ").toList, ("= 2.0.0").toList⟩] []) [] = none) :=
  ⟨by decide, claim_C10 _ _ (by decide)⟩

/-- C1 as stated is false: counterexample. The package `dual` comes from
Feed A with version `1.0.0` and from Feed B with an empty list; the merged
entry has `all_versions_malicious = true` while its versions set is the
non-empty `[1.0.0]`. -/
theorem claim_C1_counterexample :
    ((dictFind (build_lookup [⟨("dual").toList, ("= 1.0.0").toList⟩]
        [((("dual").toList), [])]) (("dual").toList)).map
      PackageInfo.all_versions_malicious = some true) ∧
    ((dictFind (build_lookup [⟨("dual").toList, ("= 1.0.0").toList⟩]
        [((("dual").toList), [])]) (("dual").toList)).map
      PackageInfo.malicious_versions = some [("1.0.0").toList]) := by
  constructor <;> decide

/-- C1 (amended): for every entry of the lookup, an empty versions set
implies `allVersionsMalicious`; and for entries that were not merged from
both feeds, `allVersionsMalicious` is true if and only if the versions set
is empty. (A merged entry whose Feed B list was empty has the flag true
with a non-empty versions set.) -/
theorem claim_C1 (rows : List CsvRow) (items : List (Str × List Str)) (name : Str)
    (entry : PackageInfo) (h : dictFind (build_lookup rows items) name = some entry) :
    (entry.malicious_versions = [] → entry.all_versions_malicious = true) ∧
    (entry.source ≠ Source.CSVJSON →
      (entry.all_versions_malicious = true ↔ entry.malicious_versions = [])) := by
  have h1 : EntryInv entry := allValues_find (build_lookup_allValues rows items) h
  exact h1

/-- Witness for C1 (amended) on a one-row Feed A lookup. -/
theorem claim_C1_witness :
    dictFind (build_lookup [⟨("a").toList, ("= 1.0.0").toList⟩] []) (("a").toList) =
      some (csvEntry ⟨("a").toList, ("= 1.0.0").toList⟩) ∧
    (((csvEntry ⟨("a").toList, ("= 1.0.0").toList⟩).malicious_versions = [] →
      (csvEntry ⟨("a").toList, ("= 1.0.0").toList⟩).all_versions_malicious = true) ∧
    ((csvEntry ⟨("a").toList, ("= 1.0.0").toList⟩).source ≠ Source.CSVJSON →
      ((csvEntry ⟨("a").toList, ("= 1.0.0").toList⟩).all_versions_malicious = true ↔
        (csvEntry ⟨("a").toList, ("= 1.0.0").toList⟩).malicious_versions = []))) :=
  ⟨by decide, claim_C1 [⟨("a").toList, ("= 1.0.0").toList⟩] [] (("a").toList)
    (csvEntry ⟨("a").toList, ("= 1.0.0").toList⟩) (by decide)⟩

/-- C2: for a package present in both feeds (its name maps to `e0` after the
Feed A phase and occurs in the Feed B items), the final entry has provenance
FeedA+FeedB, its flag equals Feed B's emptiness signal (never influenced by
Feed A), its versions set is the deduplicated, `strLe`-sorted union of the
Feed A parsed set and the Feed B list, and its major version is the pre-dot
segment of the first element of that merged sorted set. -/
theorem claim_C2 (rows : List CsvRow) (items : List (Str × List Str)) (name : Str)
    (data : List Str) (e0 : PackageInfo)
    (hname : name ≠ [])
    (hnd : (items.map Prod.fst).Nodup)
    (hmem : (name, data) ∈ items)
    (hcsv : dictFind (process_csv rows []) name = some e0) :
    ∃ entry, dictFind (build_lookup rows items) name = some entry ∧
      entry.source = Source.CSVJSON ∧
      entry.all_versions_malicious = data.isEmpty ∧
      (∀ v, v ∈ entry.malicious_versions ↔
        (v ∈ e0.malicious_versions ∨ v ∈ data)) ∧
      entry.malicious_versions.Nodup ∧
      List.Sorted (fun a b => strLe a b = true) entry.malicious_versions ∧
      entry.major_version = entry.malicious_versions.head?.map majorSeg := by
  refine ⟨mergeEntry e0 data, ?_, rfl, rfl, ?_, ?_, ?_, ?_⟩
  · exact process_json_find_merge hnd hmem hname hcsv
  · intro v
    show v ∈ sortStrs ((e0.malicious_versions ++ data).dedup) ↔ _
    rw [mem_sortStrs, List.mem_dedup, List.mem_append]
  · exact nodup_sortStrs (List.nodup_dedup _)
  · exact sorted_sortStrs _
  · exact majorOf_eq_head _

/-- Witness for C2: package `dual` in Feed A with `1.0.0` and in Feed B with
`[0.5.0]`. -/
theorem claim_C2_witness :
    ((("dual").toList : Str) ≠ [] ∧
      dictFind (process_csv [⟨("dual").toList, ("= 1.0.0").toList⟩] []) (("dual").toList) =
        some (csvEntry ⟨("dual").toList, ("= 1.0.0").toList⟩)) ∧
    (∃ entry, dictFind (build_lookup [⟨("dual").toList, ("= 1.0.0").toList⟩]
        [((("dual").toList), [("0.5.0").toList])]) (("dual").toList) = some entry ∧
      entry.source = Source.CSVJSON ∧
      entry.all_versions_malicious = ([("0.5.0").toList] : List Str).isEmpty ∧
      (∀ v, v ∈ entry.malicious_versions ↔
        (v ∈ (csvEntry ⟨("dual").toList, ("= 1.0.0").toList⟩).malicious_versions ∨
          v ∈ [("0.5.0").toList])) ∧
      entry.malicious_versions.Nodup ∧
      List.Sorted (fun a b => strLe a b = true) entry.malicious_versions ∧
      entry.major_version = entry.malicious_versions.head?.map majorSeg) :=
  ⟨⟨by decide, by decide⟩,
    claim_C2 [⟨("dual").toList, ("= 1.0.0").toList⟩]
      [((("dual").toList), [("0.5.0").toList])] (("dual").toList) [("0.5.0").toList]
      (csvEntry ⟨("dual").toList, ("= 1.0.0").toList⟩)
      (by decide) (by decide) (by decide) (by decide)⟩

/-- The three-term expression reassociated so each term sits to the left of
an explicit two-bar separator. -/
theorem mkExpr_eq (a b c : Str) :
    mkExpr a b c =
      ((['=', ' '] ++ a) ++ [' ']) ++
        ('|' :: '|' :: (((' ' :: ('=' :: ' ' :: b)) ++ [' ']) ++
          ('|' :: '|' :: (' ' :: ('=' :: ' ' :: c))))) := by
  simp [mkExpr, List.append_assoc]

/-- C3: on an expression of the claimed three-term form, the parser returns
the three version strings in input order and the major version is the
portion of the first one before its first dot (the whole string when it has
no dot). -/
theorem claim_C3 (a b c : Str) (ha1 : NoBar a) (ha2 : Stripped a) (hb1 : NoBar b)
    (hb2 : Stripped b) (hc1 : NoBar c) (hc2 : Stripped c) :
    parse_version (mkExpr a b c) = (some (majorSeg a), [a, b, c]) := by
  have hA : NoBar ((['=', ' '] ++ a) ++ [' ']) :=
    noBar_append (noBar_append (noBar_cons (by decide) (noBar_cons (by decide) noBar_nil)) ha1)
      (noBar_cons (by decide) noBar_nil)
  have hB : NoBar ((' ' :: ('=' :: ' ' :: b)) ++ [' ']) :=
    noBar_append (noBar_cons (by decide) (noBar_cons (by decide)
      (noBar_cons (by decide) hb1))) (noBar_cons (by decide) noBar_nil)
  have hC : NoBar (' ' :: ('=' :: ' ' :: c)) :=
    noBar_cons (by decide) (noBar_cons (by decide) (noBar_cons (by decide) hc1))
  have hsplit : splitBars (mkExpr a b c) =
      [(['=', ' '] ++ a) ++ [' '], (' ' :: ('=' :: ' ' :: b)) ++ [' '],
        ' ' :: ('=' :: ' ' :: c)] := by
    rw [mkExpr_eq, splitBars_append _ hA, splitBars_append _ hB, splitBars_noBar hC]
  simp only [parse_version, hsplit, List.map_cons, List.map_nil,
    parseTerm_t1 ha2, parseTerm_t2 hb2, parseTerm_t3 hc2, majorOf]

/-- Witness for C3 at the versions from the spec's example. -/
theorem claim_C3_witness :
    (NoBar (("3.24.1").toList) ∧ Stripped (("3.24.1").toList)) ∧
    parse_version (mkExpr (("3.24.1").toList) (("3.24.2").toList) (("0.0.7").toList)) =
      (some (majorSeg (("3.24.1").toList)),
        [("3.24.1").toList, ("3.24.2").toList, ("0.0.7").toList]) :=
  ⟨⟨by decide, by decide⟩,
    claim_C3 (("3.24.1").toList) (("3.24.2").toList) (("0.0.7").toList)
      (by decide) (by decide) (by decide) (by decide) (by decide) (by decide)⟩

/-- C4: when the looked-up entry has `allVersionsMalicious` true, the
classifier reports an exact-version match regardless of the component's
version, and a major-version match exactly when the component's version
string is non-empty. -/
theorem claim_C4 (packages_lookup : List (Str × PackageInfo)) (name ver : Str)
    (info : PackageInfo) (hf : dictFind packages_lookup name = some info)
    (havm : info.all_versions_malicious = true) :
    (match_component_against_packages name ver packages_lookup).exact_version = [name] ∧
    (match_component_against_packages name ver packages_lookup).major_version =
      (if ver = [] then [] else [name]) := by
  simp [match_component_against_packages, hf, havm]

/-- Witness for C4 on an all-versions Feed B entry and a versioned component. -/
theorem claim_C4_witness :
    (dictFind [((("evil-pkg").toList), jsonEntry [])] (("evil-pkg").toList) =
        some (jsonEntry []) ∧
      (jsonEntry []).all_versions_malicious = true) ∧
    ((match_component_against_packages (("evil-pkg").toList) (("2.0.0").toList)
        [((("evil-pkg").toList), jsonEntry [])]).exact_version = [("evil-pkg").toList] ∧
      (match_component_against_packages (("evil-pkg").toList) (("2.0.0").toList)
        [((("evil-pkg").toList), jsonEntry [])]).major_version =
        (if (("2.0.0").toList : Str) = [] then [] else [("evil-pkg").toList])) :=
  ⟨⟨by decide, by decide⟩,
    claim_C4 [((("evil-pkg").toList), jsonEntry [])] (("evil-pkg").toList)
      (("2.0.0").toList) (jsonEntry []) (by decide) (by decide)⟩

/-- C5 as stated is false: counterexample. The lookup built from the Feed A
row with package `x` and empty version expression has an entry for `x` with
`allVersionsMalicious` false and a non-null (empty-string) major version;
the component version `.5` strips to the non-empty `.5`, whose pre-dot
segment is the empty string and so equals the entry's major version, yet the
classifier reports no major-version match (the Python truthiness test
`if major_version` rejects the empty string). -/
theorem claim_C5_counterexample :
    ((dictFind (build_lookup [⟨("x").toList, []⟩] []) (("x").toList)).map
        PackageInfo.all_versions_malicious = some false) ∧
    ((dictFind (build_lookup [⟨("x").toList, []⟩] []) (("x").toList)).map
        PackageInfo.major_version = some (some [])) ∧
    (vStrip ((".5").toList) ≠ [] ∧ majorSeg (vStrip ((".5").toList)) = []) ∧
    (match_component_against_packages (("x").toList) ((".5").toList)
        (build_lookup [⟨("x").toList, []⟩] [])).major_version = [] := by
  refine ⟨by decide, by decide, ⟨by decide, by decide⟩, by decide⟩

/-- C5 (amended): for an entry with `allVersionsMalicious` false, the
classifier reports an exact-version match iff the v/V-stripped or the raw
component version is in the entry's versions set, and a major-version match
iff the entry's major version is non-null AND non-empty, the stripped
component version is non-empty, and its pre-dot segment equals the entry's
major version by exact string equality. -/
theorem claim_C5 (packages_lookup : List (Str × PackageInfo)) (name ver : Str)
    (info : PackageInfo) (hf : dictFind packages_lookup name = some info)
    (havm : info.all_versions_malicious = false) :
    ((match_component_against_packages name ver packages_lookup).exact_version ≠ [] ↔
      (vStrip ver ∈ info.malicious_versions ∨ ver ∈ info.malicious_versions)) ∧
    ((match_component_against_packages name ver packages_lookup).major_version ≠ [] ↔
      (∃ mv, info.major_version = some mv ∧ mv ≠ [] ∧ vStrip ver ≠ [] ∧
        majorSeg (vStrip ver) = mv)) := by
  have hclean : (if ver = [] then [] else vStrip ver) = vStrip ver := clean_eq_vStrip ver
  constructor
  · simp only [match_component_against_packages, hf, havm, Bool.false_eq_true,
      if_false, hclean]
    split <;> rename_i hcond <;> simp [hcond]
  · simp only [match_component_against_packages, hf, havm, Bool.false_eq_true,
      if_false, hclean]
    cases hmv : info.major_version with
    | none => simp
    | some mv =>
      simp only [Option.some.injEq]
      constructor
      · intro h
        split at h
        · rename_i hcond
          split at h
          · rename_i hseg
            exact ⟨mv, rfl, hcond.1, hcond.2, hseg⟩
          · exact absurd rfl h
        · exact absurd rfl h
      · rintro ⟨mv', hmv', hne, hcne, hseg⟩
        subst hmv'
        rw [if_pos ⟨hne, hcne⟩, if_pos hseg]
        simp

/-- Witness for C5 (amended): a Feed A entry for `left-pad 1.3.0` matched
against component version `v1.3.0`. -/
theorem claim_C5_witness :
    (dictFind (build_lookup [⟨("left-pad").toList, ("= 1.3.0").toList⟩] [])
        (("left-pad").toList) =
      some (csvEntry ⟨("left-pad").toList, ("= 1.3.0").toList⟩) ∧
      (csvEntry ⟨("left-pad").toList, ("= 1.3.0").toList⟩).all_versions_malicious = false) ∧
    (((match_component_against_packages (("left-pad").toList) (("v1.3.0").toList)
        (build_lookup [⟨("left-pad").toList, ("= 1.3.0").toList⟩] [])).exact_version ≠ [] ↔
      (vStrip (("v1.3.0").toList) ∈
          (csvEntry ⟨("left-pad").toList, ("= 1.3.0").toList⟩).malicious_versions ∨
        ("v1.3.0").toList ∈
          (csvEntry ⟨("left-pad").toList, ("= 1.3.0").toList⟩).malicious_versions)) ∧
    ((match_component_against_packages (("left-pad").toList) (("v1.3.0").toList)
        (build_lookup [⟨("left-pad").toList, ("= 1.3.0").toList⟩] [])).major_version ≠ [] ↔
      (∃ mv, (csvEntry ⟨("left-pad").toList, ("= 1.3.0").toList⟩).major_version = some mv ∧
        mv ≠ [] ∧ vStrip (("v1.3.0").toList) ≠ [] ∧
        majorSeg (vStrip (("v1.3.0").toList)) = mv))) :=
  ⟨⟨by decide, by decide⟩,
    claim_C5 (build_lookup [⟨("left-pad").toList, ("= 1.3.0").toList⟩] [])
      (("left-pad").toList) (("v1.3.0").toList)
      (csvEntry ⟨("left-pad").toList, ("= 1.3.0").toList⟩) (by decide) (by decide)⟩

end ShaiHulud
